import Mathlib

/-!
Verification of the inventory ledger core of `inventory_gui.py`
(classes `Item` and `InventoryManager`), shallowly embedded in Lean.

Python `datetime.date` values are modelled by the `Date` structure with
lexicographic comparison; Python `int` by `Int`; Python `float` prices by
`Rat` (no claim exercises float rounding); the insertion-ordered Python
`dict` by an association list with unique keys; the Python `set` of
categories by a `Finset String`; the action stack (a Python list used
with `append`/`pop`) by a `List` with its tail as the top.
-/

namespace Inventory

/-- A calendar date, `datetime.date(y, m, d)`. -/
structure Date where
  y : Nat
  m : Nat
  d : Nat
deriving DecidableEq, Repr

/-- Python `date.__lt__`: lexicographic on (year, month, day). -/
def Date.lt (a b : Date) : Bool :=
  a.y < b.y || (a.y == b.y && (a.m < b.m || (a.m == b.m && a.d < b.d)))

theorem Date.lt_iff (a b : Date) :
    Date.lt a b = true ↔
      a.y < b.y ∨ (a.y = b.y ∧ (a.m < b.m ∨ (a.m = b.m ∧ a.d < b.d))) := by
  simp [Date.lt, Bool.or_eq_true, Bool.and_eq_true, decide_eq_true_eq, beq_iff_eq]

theorem Date.lt_false_iff (a b : Date) :
    Date.lt a b = false ↔
      ¬ (a.y < b.y ∨ (a.y = b.y ∧ (a.m < b.m ∨ (a.m = b.m ∧ a.d < b.d)))) := by
  rw [← Date.lt_iff]
  exact Bool.not_eq_true (Date.lt a b) ▸ Iff.symm (Bool.eq_false_iff.symm.trans (by simp))

theorem Date.eq_iff (a b : Date) : a = b ↔ a.y = b.y ∧ a.m = b.m ∧ a.d = b.d := by
  cases a; cases b; simp

theorem Date.lt_total (a b : Date) :
    Date.lt a b = true ∨ Date.lt b a = true ∨ a = b := by
  rw [Date.lt_iff, Date.lt_iff, Date.eq_iff]
  omega

theorem Date.lt_asymm {a b : Date} (h : Date.lt a b = true) : Date.lt b a = false := by
  rw [Date.lt_iff] at h
  rw [Date.lt_false_iff]
  omega

theorem Date.lt_trans {a b c : Date} (h1 : Date.lt a b = true) (h2 : Date.lt b c = true) :
    Date.lt a c = true := by
  rw [Date.lt_iff] at h1 h2 ⊢
  omega

theorem Date.not_lt_trans {a b c : Date} (h1 : Date.lt b a = false)
    (h2 : Date.lt c b = false) : Date.lt c a = false := by
  rw [Date.lt_false_iff] at h1 h2 ⊢
  omega

/-- One stock batch: `(expiry_date, quantity)` as stored in `expiry_queue`. -/
abbrev Batch := Date × Int

/-- The sort order used by `sorted(self.expiry_queue, key=lambda x: x[0])`:
compare by expiry date only; stable sorting makes this a non-strict order. -/
def batchLE (a b : Batch) : Prop := Date.lt b.1 a.1 = false

instance : DecidableRel batchLE := fun a b => instDecidableEqBool (Date.lt b.1 a.1) false

instance : IsTotal Batch batchLE where
  total a b := by
    rcases Date.lt_total b.1 a.1 with h | h | h
    · exact Or.inr (Date.lt_asymm h)
    · exact Or.inl (Date.lt_asymm h)
    · exact Or.inl (by simp [batchLE, h, Date.lt_false_iff])

instance : IsTrans Batch batchLE where
  trans _ _ _ h1 h2 := Date.not_lt_trans h1 h2

/-- `deque(sorted(queue, key=lambda x: x[0]))`: Python `sorted` is a stable
sort keyed on the expiry date, modelled by stable insertion sort. -/
def sortBatches (l : List Batch) : List Batch := List.insertionSort batchLE l

/-- Sum of the batch quantities of a ledger. -/
def sumQ (l : List Batch) : Int := (l.map Prod.snd).sum

/-- The `while self.expiry_queue and self.expiry_queue[0][0] < today` loop of
`Item.remove_expired`: pops front batches strictly before `today`,
returning the accumulated removed quantity and the remaining queue. -/
def dropExpired (today : Date) : List Batch → Int × List Batch
  | [] => (0, [])
  | (d, q) :: rest =>
    if Date.lt d today then
      let p := dropExpired today rest
      (q + p.1, p.2)
    else (0, (d, q) :: rest)

/-- Class `Item` of `inventory_gui.py`. -/
structure Item where
  name : String
  category : String
  price : Rat
  quantity : Int
  expiry_queue : List Batch
  date_added : Date
deriving DecidableEq, Repr

/-- `Item.__init__(name, category, price)`; `today` is the ambient
`datetime.date.today()`. -/
def Item.new (name category : String) (price : Rat) (today : Date) : Item :=
  ⟨name, category, price, 0, [], today⟩

/-- `Item.add_stock(quantity, expiry_date)`. -/
def Item.add_stock (it : Item) (quantity : Int) (expiry_date : Date) : Item :=
  { it with
    quantity := it.quantity + quantity
    expiry_queue := sortBatches (it.expiry_queue ++ [(expiry_date, quantity)]) }

/-- `Item.remove_expired()`, with `datetime.date.today()` passed explicitly;
returns the removed quantity together with the updated item. -/
def Item.remove_expired (it : Item) (today : Date) : Int × Item :=
  let p := dropExpired today it.expiry_queue
  (p.1, { it with quantity := it.quantity - p.1, expiry_queue := p.2 })

/-- Folding a sequence of `add_stock` calls over an item; each list entry is
`(expiry_date, quantity)`. -/
def addStocks (it : Item) (cs : List Batch) : Item :=
  cs.foldl (fun i c => i.add_stock c.2 c.1) it

theorem Date.lt_irrefl (a : Date) : Date.lt a a = false := by
  rw [Date.lt_false_iff]
  omega

theorem sumQ_append (l1 l2 : List Batch) : sumQ (l1 ++ l2) = sumQ l1 + sumQ l2 := by
  simp [sumQ]

theorem sumQ_perm {l1 l2 : List Batch} (h : l1.Perm l2) : sumQ l1 = sumQ l2 :=
  (h.map Prod.snd).sum_eq

theorem sumQ_sortBatches (l : List Batch) : sumQ (sortBatches l) = sumQ l :=
  sumQ_perm (List.perm_insertionSort batchLE l)

theorem dropExpired_sum (today : Date) (l : List Batch) :
    (dropExpired today l).1 + sumQ (dropExpired today l).2 = sumQ l := by
  induction l with
  | nil => simp [dropExpired, sumQ]
  | cons b rest ih =>
    obtain ⟨d, q⟩ := b
    by_cases h : Date.lt d today = true
    · simp only [dropExpired, h, if_true]
      have := ih
      simp only [sumQ, List.map_cons, List.sum_cons] at *
      omega
    · simp [dropExpired, h]

theorem dropExpired_sorted (today : Date) {l : List Batch}
    (h : List.Sorted batchLE l) :
    dropExpired today l =
      (sumQ (l.filter (fun b => Date.lt b.1 today)),
       l.filter (fun b => !(Date.lt b.1 today))) := by
  induction l with
  | nil => simp [dropExpired, sumQ]
  | cons b rest ih =>
    obtain ⟨d, q⟩ := b
    have hrest : List.Sorted batchLE rest := h.tail
    have hall : ∀ x ∈ rest, batchLE (d, q) x := fun x hx => List.rel_of_sorted_cons h x hx
    by_cases hd : Date.lt d today = true
    · have hstep : dropExpired today ((d, q) :: rest) =
          (q + (dropExpired today rest).1, (dropExpired today rest).2) := by
        simp [dropExpired, hd]
      rw [hstep, ih hrest]
      simp [List.filter_cons, hd, sumQ]
    · have hd' : Date.lt d today = false := by
        cases hb : Date.lt d today
        · rfl
        · exact absurd hb hd
      have hnone : ∀ x ∈ rest, Date.lt x.1 today = false := by
        intro x hx
        exact Date.not_lt_trans hd' (hall x hx)
      have h1 : rest.filter (fun b => Date.lt b.1 today) = [] :=
        List.filter_eq_nil_iff.mpr (fun x hx => by simp [hnone x hx])
      have h2 : rest.filter (fun b => !(Date.lt b.1 today)) = rest :=
        List.filter_eq_self.mpr (fun x hx => by simp [hnone x hx])
      simp [dropExpired, hd', List.filter_cons, h1, h2, sumQ]

theorem filter_orderedInsert_eq_key (dd : Date) (x : Batch) (hx : x.1 = dd)
    (l : List Batch) :
    (List.orderedInsert batchLE x l).filter (fun b => b.1 == dd) =
      x :: l.filter (fun b => b.1 == dd) := by
  induction l with
  | nil => simp [List.orderedInsert, hx]
  | cons y ys ih =>
    by_cases h : batchLE x y
    · simp [List.orderedInsert, h, List.filter_cons, hx]
    · have hlt : Date.lt y.1 x.1 = true := by
        cases hb : Date.lt y.1 x.1
        · exact absurd hb h
        · rfl
      have hy : (y.1 == dd) = false := by
        rw [beq_eq_false_iff_ne]
        intro hc
        rw [hc, ← hx] at hlt
        rw [Date.lt_irrefl] at hlt
        exact Bool.false_ne_true hlt
      simp [List.orderedInsert, h, List.filter_cons, hy, ih]

theorem filter_orderedInsert_ne_key (dd : Date) (x : Batch) (hx : (x.1 == dd) = false)
    (l : List Batch) :
    (List.orderedInsert batchLE x l).filter (fun b => b.1 == dd) =
      l.filter (fun b => b.1 == dd) := by
  induction l with
  | nil => simp [List.orderedInsert, hx]
  | cons y ys ih =>
    by_cases h : batchLE x y
    · simp [List.orderedInsert, h, List.filter_cons, hx]
    · simp only [List.orderedInsert, h, if_false, List.filter_cons]
      by_cases hy : (y.1 == dd) = true
      · simp [hy, ih]
      · simp only [Bool.not_eq_true] at hy
        simp [hy, ih]

theorem filter_sortBatches_key (dd : Date) (l : List Batch) :
    (sortBatches l).filter (fun b => b.1 == dd) = l.filter (fun b => b.1 == dd) := by
  induction l with
  | nil => rfl
  | cons x xs ih =>
    show (List.orderedInsert batchLE x (sortBatches xs)).filter _ = _
    by_cases hx : x.1 = dd
    · rw [filter_orderedInsert_eq_key dd x hx, ih, List.filter_cons]
      simp [hx]
    · have hx' : (x.1 == dd) = false := by
        rw [beq_eq_false_iff_ne]
        exact hx
      rw [filter_orderedInsert_ne_key dd x hx', ih, List.filter_cons]
      simp [hx']

theorem addStocks_cons (it : Item) (c : Batch) (cs : List Batch) :
    addStocks it (c :: cs) = addStocks (it.add_stock c.2 c.1) cs := rfl

theorem addStocks_queue_filter (dd : Date) :
    ∀ (cs : List Batch) (it : Item),
      (addStocks it cs).expiry_queue.filter (fun b => b.1 == dd) =
        it.expiry_queue.filter (fun b => b.1 == dd) ++ cs.filter (fun b => b.1 == dd)
  | [], it => by simp [addStocks]
  | c :: cs, it => by
    rw [addStocks_cons, addStocks_queue_filter dd cs]
    have : (it.add_stock c.2 c.1).expiry_queue.filter (fun b => b.1 == dd) =
        it.expiry_queue.filter (fun b => b.1 == dd) ++ [c].filter (fun b => b.1 == dd) := by
      show (sortBatches (it.expiry_queue ++ [(c.1, c.2)])).filter _ = _
      rw [filter_sortBatches_key, List.filter_append]
    rw [this, List.append_assoc, ← List.filter_append, List.singleton_append]

theorem addStocks_queue_sorted :
    ∀ (cs : List Batch) (it : Item), List.Sorted batchLE it.expiry_queue →
      List.Sorted batchLE (addStocks it cs).expiry_queue
  | [], _, h => h
  | c :: cs, it, _ => by
    rw [addStocks_cons]
    exact addStocks_queue_sorted cs _ (List.sorted_insertionSort batchLE _)

/-- Gregorian leap-year rule, as in Python `calendar.isleap`. -/
def isLeap (y : Nat) : Bool := y % 4 == 0 && (y % 100 != 0 || y % 400 == 0)

/-- Number of days of month `m` in year `y`. -/
def daysInMonth (y m : Nat) : Nat :=
  if m == 2 then (if isLeap y then 29 else 28)
  else if m == 4 || m == 6 || m == 9 || m == 11 then 30
  else 31

/-- The constraints enforced by the `datetime.date` constructor:
year in `1..9999`, month in `1..12`, day in `1..daysInMonth`. -/
def ValidDate (dt : Date) : Prop :=
  1 ≤ dt.y ∧ dt.y ≤ 9999 ∧ 1 ≤ dt.m ∧ dt.m ≤ 12 ∧ 1 ≤ dt.d ∧ dt.d ≤ daysInMonth dt.y dt.m

instance (dt : Date) : Decidable (ValidDate dt) := by
  unfold ValidDate
  infer_instance

/-- `datetime.date(y, m, d)` as a fallible constructor. -/
def mkDate? (y m d : Nat) : Option Date :=
  if 1 ≤ y && y ≤ 9999 && 1 ≤ m && m ≤ 12 && 1 ≤ d && d ≤ daysInMonth y m then
    some ⟨y, m, d⟩
  else none

/-- Numeric value of a digit character. -/
def digitVal (c : Char) : Nat := c.toNat - 48

/-- Whether a character is an ASCII digit. -/
def isDig (c : Char) : Bool := 48 ≤ c.toNat && c.toNat ≤ 57

/-- Modelled from the spec: `datetime.datetime.strptime(text, "%Y-%m-%d").date()`,
the ISO `YYYY-MM-DD` parse used by `update_quantity` and `import_from_json`
(library code, not part of the repository). CPython matches exactly four
digits for `%Y` and one or two digits for `%m` and `%d`, then validates the
components through the `datetime.date` constructor; any other shape raises
`ValueError`, modelled as `none`. -/
def parseDate (s : String) : Option Date :=
  match s.data with
  | [y1, y2, y3, y4, c5, p6, p7, c8, p9, p10] =>
    if c5 == '-' && c8 == '-' && isDig y1 && isDig y2 && isDig y3 && isDig y4 &&
        isDig p6 && isDig p7 && isDig p9 && isDig p10 then
      mkDate? (1000 * digitVal y1 + 100 * digitVal y2 + 10 * digitVal y3 + digitVal y4)
        (10 * digitVal p6 + digitVal p7) (10 * digitVal p9 + digitVal p10)
    else none
  | [y1, y2, y3, y4, c5, p6, p7, p8, p9] =>
    if c5 == '-' && p7 == '-' && isDig y1 && isDig y2 && isDig y3 && isDig y4 &&
        isDig p6 && isDig p8 && isDig p9 then
      mkDate? (1000 * digitVal y1 + 100 * digitVal y2 + 10 * digitVal y3 + digitVal y4)
        (digitVal p6) (10 * digitVal p8 + digitVal p9)
    else if c5 == '-' && p8 == '-' && isDig y1 && isDig y2 && isDig y3 && isDig y4 &&
        isDig p6 && isDig p7 && isDig p9 then
      mkDate? (1000 * digitVal y1 + 100 * digitVal y2 + 10 * digitVal y3 + digitVal y4)
        (10 * digitVal p6 + digitVal p7) (digitVal p9)
    else none
  | [y1, y2, y3, y4, c5, p6, c7, p8] =>
    if c5 == '-' && c7 == '-' && isDig y1 && isDig y2 && isDig y3 && isDig y4 &&
        isDig p6 && isDig p8 then
      mkDate? (1000 * digitVal y1 + 100 * digitVal y2 + 10 * digitVal y3 + digitVal y4)
        (digitVal p6) (digitVal p8)
    else none
  | _ => none

/-- The character of a single decimal digit. -/
def digitChar (k : Nat) : Char :=
  match k with
  | 0 => '0' | 1 => '1' | 2 => '2' | 3 => '3' | 4 => '4'
  | 5 => '5' | 6 => '6' | 7 => '7' | 8 => '8' | 9 => '9'
  | _ => '0'

/-- Four-digit zero-padded decimal rendering. -/
def pad4 (n : Nat) : List Char :=
  [digitChar (n / 1000 % 10), digitChar (n / 100 % 10), digitChar (n / 10 % 10),
    digitChar (n % 10)]

/-- Two-digit zero-padded decimal rendering. -/
def pad2 (n : Nat) : List Char :=
  [digitChar (n / 10 % 10), digitChar (n % 10)]

/-- Modelled from the spec: Python `str(date)`, the ISO `YYYY-MM-DD` rendering
used by `Item.to_dict` and `import_from_json` (library code, not part of
the repository). -/
def dateToString (dt : Date) : String :=
  ⟨pad4 dt.y ++ '-' :: pad2 dt.m ++ '-' :: pad2 dt.d⟩

theorem daysInMonth_le (y m : Nat) : daysInMonth y m ≤ 31 := by
  unfold daysInMonth
  split
  · split <;> omega
  · split <;> omega

theorem digit_spec {k : Nat} (h : k < 10) :
    isDig (digitChar k) = true ∧ digitVal (digitChar k) = k := by
  interval_cases k <;> exact ⟨rfl, rfl⟩

theorem parseDate_ten (a b c e f g i j : Char) :
    parseDate ⟨[a, b, c, e, '-', f, g, '-', i, j]⟩ =
      (if isDig a && isDig b && isDig c && isDig e && isDig f && isDig g &&
          isDig i && isDig j then
        mkDate? (1000 * digitVal a + 100 * digitVal b + 10 * digitVal c + digitVal e)
          (10 * digitVal f + digitVal g) (10 * digitVal i + digitVal j)
      else none) := by
  show (if ('-' == '-' && '-' == '-' && isDig a && isDig b && isDig c && isDig e &&
      isDig f && isDig g && isDig i && isDig j) = true then
      mkDate? (1000 * digitVal a + 100 * digitVal b + 10 * digitVal c + digitVal e)
        (10 * digitVal f + digitVal g) (10 * digitVal i + digitVal j)
    else none) = _
  simp only [beq_self_eq_true, Bool.true_and]

/-- Serialising a valid date and parsing it back yields the same date. -/
theorem parseDate_dateToString {dt : Date} (h : ValidDate dt) :
    parseDate (dateToString dt) = some dt := by
  obtain ⟨y, m, d⟩ := dt
  obtain ⟨h1, h2, h3, h4, h5, h6⟩ := h
  replace h1 : 1 ≤ y := h1
  replace h2 : y ≤ 9999 := h2
  replace h3 : 1 ≤ m := h3
  replace h4 : m ≤ 12 := h4
  replace h5 : 1 ≤ d := h5
  replace h6 : d ≤ daysInMonth y m := h6
  have e1 := @digit_spec (y / 1000 % 10) (Nat.mod_lt _ (by omega))
  have e2 := @digit_spec (y / 100 % 10) (Nat.mod_lt _ (by omega))
  have e3 := @digit_spec (y / 10 % 10) (Nat.mod_lt _ (by omega))
  have e4 := @digit_spec (y % 10) (Nat.mod_lt _ (by omega))
  have e5 := @digit_spec (m / 10 % 10) (Nat.mod_lt _ (by omega))
  have e6 := @digit_spec (m % 10) (Nat.mod_lt _ (by omega))
  have e7 := @digit_spec (d / 10 % 10) (Nat.mod_lt _ (by omega))
  have e8 := @digit_spec (d % 10) (Nat.mod_lt _ (by omega))
  show parseDate ⟨[digitChar (y / 1000 % 10), digitChar (y / 100 % 10),
    digitChar (y / 10 % 10), digitChar (y % 10), '-', digitChar (m / 10 % 10),
    digitChar (m % 10), '-', digitChar (d / 10 % 10), digitChar (d % 10)]⟩ = some ⟨y, m, d⟩
  rw [parseDate_ten, e1.1, e2.1, e3.1, e4.1, e5.1, e6.1, e7.1, e8.1,
    e1.2, e2.2, e3.2, e4.2, e5.2, e6.2, e7.2, e8.2]
  have hy : 1000 * (y / 1000 % 10) + 100 * (y / 100 % 10) + 10 * (y / 10 % 10) + y % 10
      = y := by omega
  have hm : 10 * (m / 10 % 10) + m % 10 = m := by omega
  have h7 : d ≤ 31 := le_trans h6 (daysInMonth_le y m)
  have hd : 10 * (d / 10 % 10) + d % 10 = d := by omega
  rw [hy, hm, hd]
  have hc : (1 ≤ y && y ≤ 9999 && 1 ≤ m && m ≤ 12 && 1 ≤ d && d ≤ daysInMonth y m)
      = true := by
    simp only [Bool.and_eq_true, decide_eq_true_eq]
    exact ⟨⟨⟨⟨⟨h1, h2⟩, h3⟩, h4⟩, h5⟩, h6⟩
  simp [mkDate?, hc]

/-- Undo records pushed onto `action_stack` (Python tuples
`('delete_item', name)` and `('update_quantity', name, delta)`). -/
inductive Action where
  | delete_item (name : String)
  | update_quantity (name : String) (delta : Int)
deriving DecidableEq, Repr

/-- Class `InventoryManager`: `items` is the insertion-ordered Python dict
(association list with unique keys), `action_stack` a Python list whose tail
is the top of the stack, `categories` a Python set. -/
structure InventoryManager where
  items : List (String × Item)
  action_stack : List Action
  categories : Finset String
deriving DecidableEq

/-- `InventoryManager.__init__()`. -/
def InventoryManager.empty : InventoryManager := ⟨[], [], ∅⟩

/-- Python `name in self.items` / `self.items[name]`: the binding of `name`. -/
def lookupItem (items : List (String × Item)) (name : String) : Option Item :=
  match items with
  | [] => none
  | (n, it) :: rest => if n = name then some it else lookupItem rest name

/-- In-place mutation of `self.items[name]`: apply `f` to the binding of `name`. -/
def mapItem (items : List (String × Item)) (name : String) (f : Item → Item) :
    List (String × Item) :=
  items.map fun p => if p.1 = name then (p.1, f p.2) else p

/-- Python `del self.items[name]` (remaining insertion order is preserved). -/
def removeItem (items : List (String × Item)) (name : String) : List (String × Item) :=
  items.filter fun p => decide (p.1 ≠ name)

/-- `InventoryManager.add_item(name, category, price)`; `today` is the ambient
`datetime.date.today()` used for the new item's `date_added`. -/
def InventoryManager.add_item (mg : InventoryManager) (name category : String)
    (price : Rat) (today : Date) : Bool × InventoryManager :=
  if (lookupItem mg.items name).isNone then
    (true,
      { items := mg.items ++ [(name, Item.new name category price today)]
        action_stack := mg.action_stack ++ [Action.delete_item name]
        categories := insert category mg.categories })
  else (false, mg)

/-- `InventoryManager.update_quantity(name, quantity, expiry_date)`. -/
def InventoryManager.update_quantity (mg : InventoryManager) (name : String)
    (quantity : Int) (expiry_date : String) : Bool × InventoryManager :=
  match lookupItem mg.items name with
  | some _ =>
    match parseDate expiry_date with
    | some dt =>
      (true,
        { mg with
          items := mapItem mg.items name (fun it => it.add_stock quantity dt)
          action_stack := mg.action_stack ++ [Action.update_quantity name (-quantity)] })
    | none => (false, mg)
  | none => (false, mg)

/-- The `for item in self.items.values()` loop of
`InventoryManager.remove_expired`, in dict insertion order. Each result
message `f"{removed} units removed from item.name"` is modelled by the pair
`(item.name, removed)`. -/
def evictLoop (today : Date) :
    List (String × Item) → List (String × Int) × List (String × Item)
  | [] => ([], [])
  | (n, it) :: rest =>
    let p := it.remove_expired today
    let q := evictLoop today rest
    ((if p.1 ≠ 0 then [(it.name, p.1)] else []) ++ q.1, (n, p.2) :: q.2)

/-- `InventoryManager.remove_expired()`, with `today` explicit. -/
def InventoryManager.remove_expired (mg : InventoryManager) (today : Date) :
    List (String × Int) × InventoryManager :=
  let p := evictLoop today mg.items
  (p.1, { mg with items := p.2 })

/-- `InventoryManager.undo_last_action()`; the result is `none` when the
source would raise an uncaught `KeyError` (undo record naming a missing
item, which no reachable state produces). -/
def InventoryManager.undo_last_action (mg : InventoryManager) :
    Option (String × InventoryManager) :=
  match mg.action_stack.getLast? with
  | none => some ("No actions to undo.", mg)
  | some (Action.delete_item n) =>
    match lookupItem mg.items n with
    | none => none
    | some it =>
      some ("Undid: Deleted item " ++ n,
        { items := removeItem mg.items n
          action_stack := mg.action_stack.dropLast
          categories := mg.categories.erase it.category })
  | some (Action.update_quantity n delta) =>
    match lookupItem mg.items n with
    | none => none
    | some _ =>
      some ("Undid: Quantity adjustment for " ++ n,
        { mg with
          items := mapItem mg.items n
            (fun it => { it with quantity := it.quantity + delta })
          action_stack := mg.action_stack.dropLast })

/-- One row of `generate_report`. The currency rendering of `Price` and
`Value` and the comma-joining of the expiry dates are presentation-layer
formatting; the row carries the underlying values, with `value` the computed
`quantity * price`. -/
structure ReportRow where
  name : String
  category : String
  quantity : Int
  price : Rat
  value : Rat
  expiry_dates : List Date
deriving DecidableEq, Repr

/-- `sorted(self.items.items())`: keys are unique, so the tuple comparison
sorts by item name. -/
def sortByName (items : List (String × Item)) : List (String × Item) :=
  List.insertionSort (fun a b => ¬ b.1 < a.1) items

/-- The guard `if category_filter and item.category != category_filter:
continue`: a row is kept when the filter is falsy (`None` or the empty
string) or matches the category. -/
def keepRow (category_filter : Option String) (cat : String) : Bool :=
  match category_filter with
  | none => true
  | some c => if c == "" then true else cat == c

/-- `InventoryManager.generate_report(category_filter)`. -/
def InventoryManager.generate_report (mg : InventoryManager)
    (category_filter : Option String) : List ReportRow :=
  (sortByName mg.items).filterMap fun p =>
    if keepRow category_filter p.2.category then
      some ⟨p.1, p.2.category, p.2.quantity, p.2.price,
        (p.2.quantity : Rat) * p.2.price, p.2.expiry_queue.map Prod.fst⟩
    else none

/-- `Item.to_dict()`. -/
structure ItemDict where
  name : String
  category : String
  price : Rat
  quantity : Int
  expiry_dates : List String
  date_added : String
deriving DecidableEq, Repr

/-- `Item.to_dict()`: one date string per batch, in queue order. -/
def Item.to_dict (it : Item) : ItemDict :=
  ⟨it.name, it.category, it.price, it.quantity,
    it.expiry_queue.map (fun b => dateToString b.1), dateToString it.date_added⟩

/-- `InventoryManager.export_to_json`, at the data level (writing the JSON
file is the collaborator boundary): the serialised object, one entry per
item, keyed by item name. -/
def InventoryManager.export_data (mg : InventoryManager) : List (String × ItemDict) :=
  mg.items.map fun p => (p.1, p.2.to_dict)

/-- The list comprehension
`[datetime.datetime.strptime(d, "%Y-%m-%d").date() for d in item_data['expiry_dates']]`:
all-or-nothing; a single failure raises `ValueError`. -/
def parseDates : List String → Option (List Date)
  | [] => some []
  | s :: rest =>
    match parseDate s with
    | none => none
    | some dt => (parseDates rest).map (fun ds => dt :: ds)

/-- The entry loop of `InventoryManager.import_from_json`: per entry,
`add_item` (result ignored), parse the entry's date list, then one
unit-quantity `update_quantity` per listed date (result ignored). A parse
failure returns `False` but keeps the mutations applied so far, since
`self` is updated in place. -/
def importLoop (today : Date) :
    InventoryManager → List (String × ItemDict) → Bool × InventoryManager
  | mg, [] => (true, mg)
  | mg, (n, idata) :: rest =>
    let mg1 := (mg.add_item n idata.category idata.price today).2
    match parseDates idata.expiry_dates with
    | none => (false, mg1)
    | some ds =>
      importLoop today
        (ds.foldl (fun m dt => (m.update_quantity n 1 (dateToString dt)).2) mg1) rest

/-- `InventoryManager.import_from_json`, at the data level (reading and
JSON-decoding the file is the collaborator boundary). -/
def InventoryManager.import_data (mg : InventoryManager)
    (data : List (String × ItemDict)) (today : Date) : Bool × InventoryManager :=
  importLoop today mg data

/-- The core operations of the registry, with the ambient dates explicit. -/
inductive Op where
  | addItem (name category : String) (price : Rat) (today : Date)
  | addStock (name : String) (quantity : Int) (expiry : String)
  | evictAll (today : Date)
  | undoLast
deriving DecidableEq

/-- One operation applied to a manager; `none` models an uncaught exception. -/
def step (mg : InventoryManager) : Op → Option InventoryManager
  | Op.addItem n c p t => some (mg.add_item n c p t).2
  | Op.addStock n q s => some (mg.update_quantity n q s).2
  | Op.evictAll t => some (mg.remove_expired t).2
  | Op.undoLast => (mg.undo_last_action).map Prod.snd

/-- Running a sequence of core operations from a manager state. -/
def run (mg : InventoryManager) : List Op → Option InventoryManager
  | [] => some mg
  | op :: ops =>
    match step mg op with
    | none => none
    | some mg1 => run mg1 ops

/-- Like `run`, but refusing to pop an `update_quantity` undo record: the
executions in which `UndoLast` never reverses an `AddStock`. -/
def runNoStockUndo (mg : InventoryManager) : List Op → Option InventoryManager
  | [] => some mg
  | op :: ops =>
    let allowed : Bool :=
      match op, mg.action_stack.getLast? with
      | Op.undoLast, some (Action.update_quantity _ _) => false
      | _, _ => true
    if allowed then
      match step mg op with
      | none => none
      | some mg1 => runNoStockUndo mg1 ops
    else none

theorem lookupItem_cons (k : String) (it : Item) (rest : List (String × Item))
    (n : String) :
    lookupItem ((k, it) :: rest) n = if k = n then some it else lookupItem rest n := rfl

theorem mapItem_cons (k : String) (it : Item) (rest : List (String × Item))
    (n : String) (f : Item → Item) :
    mapItem ((k, it) :: rest) n f =
      (if k = n then (k, f it) else (k, it)) :: mapItem rest n f := rfl

theorem lookupItem_append_of_none {l1 : List (String × Item)} {n : String}
    (h : lookupItem l1 n = none) (l2 : List (String × Item)) :
    lookupItem (l1 ++ l2) n = lookupItem l2 n := by
  induction l1 with
  | nil => rfl
  | cons p rest ih =>
    obtain ⟨k, it⟩ := p
    rw [lookupItem_cons] at h
    rw [List.cons_append, lookupItem_cons]
    by_cases hk : k = n
    · rw [if_pos hk] at h
      exact absurd h (by simp)
    · rw [if_neg hk] at h ⊢
      exact ih h

theorem lookupItem_mapItem_self (l : List (String × Item)) (n : String) (f : Item → Item) :
    lookupItem (mapItem l n f) n = (lookupItem l n).map f := by
  induction l with
  | nil => rfl
  | cons p rest ih =>
    obtain ⟨k, it⟩ := p
    by_cases hk : k = n
    · rw [mapItem_cons, if_pos hk, lookupItem_cons, if_pos hk, lookupItem_cons, if_pos hk]
      rfl
    · rw [mapItem_cons, if_neg hk, lookupItem_cons, if_neg hk, lookupItem_cons,
        if_neg hk, ih]

theorem lookupItem_mapItem_ne (l : List (String × Item)) {n m : String} (f : Item → Item)
    (h : m ≠ n) : lookupItem (mapItem l n f) m = lookupItem l m := by
  induction l with
  | nil => rfl
  | cons p rest ih =>
    obtain ⟨k, it⟩ := p
    by_cases hk : k = n
    · have hm : k ≠ m := fun hc => h (hc ▸ hk)
      rw [mapItem_cons, if_pos hk, lookupItem_cons, if_neg hm, lookupItem_cons,
        if_neg hm, ih]
    · rw [mapItem_cons, if_neg hk, lookupItem_cons, lookupItem_cons]
      by_cases hm : k = m
      · rw [if_pos hm, if_pos hm]
      · rw [if_neg hm, if_neg hm, ih]

theorem filterMap_all_some {α β : Type} (g : α → β) (l : List α) :
    l.filterMap (fun a => some (g a)) = l.map g := by
  induction l with
  | nil => rfl
  | cons a l ih => simp [List.filterMap_cons, ih]

/-- C10: for every registry, `generate_report` with the empty string as the
category filter behaves identically to `generate_report` with no filter
(Python truthiness treats `""` like `None`), and it returns one row per
item, whatever the items' categories. -/
theorem generate_report_empty_filter (mg : InventoryManager) :
    mg.generate_report (some "") = mg.generate_report none ∧
    (mg.generate_report (some "")).length = mg.items.length := by
  have hsame : mg.generate_report (some "") = mg.generate_report none := by
    unfold InventoryManager.generate_report
    simp [keepRow]
  refine ⟨hsame, ?_⟩
  rw [hsame]
  unfold InventoryManager.generate_report
  rw [show (fun p : String × Item =>
      if keepRow none p.2.category then
        some (⟨p.1, p.2.category, p.2.quantity, p.2.price,
          (p.2.quantity : Rat) * p.2.price, p.2.expiry_queue.map Prod.fst⟩ : ReportRow)
      else none) =
    (fun p : String × Item =>
      some (⟨p.1, p.2.category, p.2.quantity, p.2.price,
        (p.2.quantity : Rat) * p.2.price, p.2.expiry_queue.map Prod.fst⟩ : ReportRow))
    from rfl]
  rw [filterMap_all_some, List.length_map]
  exact List.length_insertionSort _ mg.items

/-- C9: `add_item` returns `False` and mutates nothing when the name already
exists; otherwise it creates the item with zero quantity and an empty batch
ledger, adds the category to the category set, pushes a `delete_item` undo
record, and returns `True`. -/
theorem add_item_spec (mg : InventoryManager) (name category : String) (price : Rat)
    (today : Date) :
    (∀ it, lookupItem mg.items name = some it →
      mg.add_item name category price today = (false, mg)) ∧
    (lookupItem mg.items name = none →
      (mg.add_item name category price today).1 = true ∧
      (mg.add_item name category price today).2.items =
        mg.items ++ [(name, ⟨name, category, price, 0, [], today⟩)] ∧
      (mg.add_item name category price today).2.categories =
        insert category mg.categories ∧
      (mg.add_item name category price today).2.action_stack =
        mg.action_stack ++ [Action.delete_item name]) := by
  constructor
  · intro it h
    unfold InventoryManager.add_item
    rw [h]
    rfl
  · intro h
    unfold InventoryManager.add_item
    rw [h]
    exact ⟨rfl, rfl, rfl, rfl⟩

/-- C9 witness: the spec scenario `AddItem("Milk","Dairy",50)` then
`AddItem("Milk","Bread",10)`: the duplicate returns `False` with the
registry unchanged. -/
theorem add_item_spec_witness :
    (InventoryManager.empty.add_item "Milk" "Dairy" 50 ⟨2025, 1, 1⟩).2.add_item
        "Milk" "Bread" 10 ⟨2025, 1, 2⟩ =
      (false, (InventoryManager.empty.add_item "Milk" "Dairy" 50 ⟨2025, 1, 1⟩).2) :=
  (add_item_spec (InventoryManager.empty.add_item "Milk" "Dairy" 50 ⟨2025, 1, 1⟩).2
    "Milk" "Bread" 10 ⟨2025, 1, 2⟩).1 ⟨"Milk", "Dairy", 50, 0, [], ⟨2025, 1, 1⟩⟩ rfl

/-- C8: `update_quantity` returns `False` and leaves the registry unchanged
when the name is absent or the expiry text does not parse as an ISO date;
on success it adds the batch to the named item, pushes an
`update_quantity(name, -quantity)` undo record, leaves the categories
untouched, and returns `True`. -/
theorem update_quantity_spec (mg : InventoryManager) (name : String) (q : Int)
    (s : String) :
    (lookupItem mg.items name = none → mg.update_quantity name q s = (false, mg)) ∧
    (parseDate s = none → mg.update_quantity name q s = (false, mg)) ∧
    (∀ it dt, lookupItem mg.items name = some it → parseDate s = some dt →
      (mg.update_quantity name q s).1 = true ∧
      lookupItem (mg.update_quantity name q s).2.items name =
        some (it.add_stock q dt) ∧
      (∀ m, m ≠ name → lookupItem (mg.update_quantity name q s).2.items m =
        lookupItem mg.items m) ∧
      (mg.update_quantity name q s).2.action_stack =
        mg.action_stack ++ [Action.update_quantity name (-q)] ∧
      (mg.update_quantity name q s).2.categories = mg.categories) := by
  refine ⟨?_, ?_, ?_⟩
  · intro h
    unfold InventoryManager.update_quantity
    rw [h]
  · intro h
    unfold InventoryManager.update_quantity
    rw [h]
    cases lookupItem mg.items name <;> rfl
  · intro it dt hit hdt
    have heq : mg.update_quantity name q s =
        (true,
          ⟨mapItem mg.items name (fun i => i.add_stock q dt),
            mg.action_stack ++ [Action.update_quantity name (-q)], mg.categories⟩) := by
      unfold InventoryManager.update_quantity
      rw [hit, hdt]
    rw [heq]
    refine ⟨rfl, ?_, ?_, rfl, rfl⟩
    · show lookupItem (mapItem mg.items name fun i => i.add_stock q dt) name = _
      rw [lookupItem_mapItem_self, hit]
      rfl
    · intro m hm
      show lookupItem (mapItem mg.items name fun i => i.add_stock q dt) m =
        lookupItem mg.items m
      exact lookupItem_mapItem_ne mg.items _ hm

/-- C8 witness: the spec scenario `AddStock("Bread",5,"2020-01-01")` on a
registry that only holds "Milk": returns `False`, registry unchanged; and a
successful `AddStock("Milk",10,"2099-01-01")` returns `True`. -/
theorem update_quantity_spec_witness :
    ((InventoryManager.empty.add_item "Milk" "Dairy" 50 ⟨2025, 1, 1⟩).2.update_quantity
        "Bread" 5 "2020-01-01" =
      (false, (InventoryManager.empty.add_item "Milk" "Dairy" 50 ⟨2025, 1, 1⟩).2)) ∧
    ((InventoryManager.empty.add_item "Milk" "Dairy" 50 ⟨2025, 1, 1⟩).2.update_quantity
        "Milk" 10 "2099-01-01").1 = true :=
  ⟨(update_quantity_spec (InventoryManager.empty.add_item "Milk" "Dairy" 50
      ⟨2025, 1, 1⟩).2 "Bread" 5 "2020-01-01").1 rfl,
   ((update_quantity_spec (InventoryManager.empty.add_item "Milk" "Dairy" 50
      ⟨2025, 1, 1⟩).2 "Milk" 10 "2099-01-01").2.2 ⟨"Milk", "Dairy", 50, 0, [], ⟨2025, 1, 1⟩⟩
      ⟨2099, 1, 1⟩ rfl (by decide)).1⟩

/-- C2: popping an `update_quantity(name, delta)` undo record adds `delta`
to that item's `quantity`, leaving its batch ledger and other fields, every
other item, and the category set unchanged; the record is removed from the
stack. -/
theorem undo_addstock_spec (mg : InventoryManager) (n : String) (delta : Int) (it : Item)
    (htop : mg.action_stack.getLast? = some (Action.update_quantity n delta))
    (hit : lookupItem mg.items n = some it) :
    (mg.undo_last_action).map (fun p => lookupItem p.2.items n) =
      some (some { it with quantity := it.quantity + delta }) ∧
    (∀ m, m ≠ n → (mg.undo_last_action).map (fun p => lookupItem p.2.items m) =
      some (lookupItem mg.items m)) ∧
    (mg.undo_last_action).map (fun p => p.2.categories) = some mg.categories ∧
    (mg.undo_last_action).map (fun p => p.2.action_stack) =
      some mg.action_stack.dropLast := by
  have heq : mg.undo_last_action =
      some ("Undid: Quantity adjustment for " ++ n,
        ⟨mapItem mg.items n (fun i => { i with quantity := i.quantity + delta }),
          mg.action_stack.dropLast, mg.categories⟩) := by
    unfold InventoryManager.undo_last_action
    rw [htop]
    show (match lookupItem mg.items n with
      | none => none
      | some _ =>
        some ("Undid: Quantity adjustment for " ++ n,
          ({ mg with
            items := mapItem mg.items n
              (fun i => { i with quantity := i.quantity + delta })
            action_stack := mg.action_stack.dropLast } : InventoryManager))) = _
    rw [hit]
  rw [heq]
  refine ⟨?_, ?_, rfl, rfl⟩
  · show some (lookupItem (mapItem mg.items n fun i =>
      { i with quantity := i.quantity + delta }) n) = _
    rw [lookupItem_mapItem_self, hit]
    rfl
  · intro m hm
    show some (lookupItem (mapItem mg.items n fun i =>
      { i with quantity := i.quantity + delta }) m) = _
    rw [lookupItem_mapItem_ne mg.items _ hm]

/-- C2 witness: create "Milk", stock 10 units, undo: the quantity drops by
10 while the single batch stays in the ledger. -/
theorem undo_addstock_spec_witness :
    (((InventoryManager.empty.add_item "Milk" "Dairy" 50 ⟨2025, 1, 1⟩).2.update_quantity
        "Milk" 10 "2099-01-01").2.undo_last_action).map
      (fun p => lookupItem p.2.items "Milk") =
    some (some ⟨"Milk", "Dairy", 50, 0, [(⟨2099, 1, 1⟩, 10)], ⟨2025, 1, 1⟩⟩) := by
  have h := (undo_addstock_spec ((InventoryManager.empty.add_item "Milk" "Dairy" 50
      ⟨2025, 1, 1⟩).2.update_quantity "Milk" 10 "2099-01-01").2 "Milk" (-10)
    ⟨"Milk", "Dairy", 50, 10, [(⟨2099, 1, 1⟩, 10)], ⟨2025, 1, 1⟩⟩
    (by decide) (by decide)).1
  exact h.trans (by decide)

/-- C3: on a ledger sorted by expiry date, `Item.remove_expired` removes
exactly the batches dated strictly before `today`, keeps the others in
their original relative order, returns the sum of the removed quantities,
and decreases `quantity` by that returned amount. -/
theorem remove_expired_item_spec (it : Item) (today : Date)
    (h : List.Sorted batchLE it.expiry_queue) :
    (it.remove_expired today).1 =
      sumQ (it.expiry_queue.filter (fun b => Date.lt b.1 today)) ∧
    (it.remove_expired today).2.expiry_queue =
      it.expiry_queue.filter (fun b => !(Date.lt b.1 today)) ∧
    (it.remove_expired today).2.quantity = it.quantity - (it.remove_expired today).1 := by
  have hd := dropExpired_sorted today h
  unfold Item.remove_expired
  rw [hd]
  exact ⟨rfl, rfl, rfl⟩

/-- C3 witness: a two-batch ledger in which only the batch dated before
`today` is evicted; the batch expiring after `today` survives. -/
theorem remove_expired_item_spec_witness :
    (Item.remove_expired ⟨"Milk", "Dairy", 50, 5,
        [(⟨2020, 1, 1⟩, 2), (⟨2021, 6, 15⟩, 3)], ⟨2020, 1, 1⟩⟩ ⟨2021, 1, 1⟩).1 =
      sumQ (List.filter (fun b => Date.lt b.1 ⟨2021, 1, 1⟩)
        [(⟨2020, 1, 1⟩, 2), (⟨2021, 6, 15⟩, 3)]) :=
  (remove_expired_item_spec ⟨"Milk", "Dairy", 50, 5,
    [(⟨2020, 1, 1⟩, 2), (⟨2021, 6, 15⟩, 3)], ⟨2020, 1, 1⟩⟩ ⟨2021, 1, 1⟩ (by decide)).1

/-- C4: after any sequence of `add_stock` calls on a freshly created item,
the batch list is sorted ascending by expiry date, and the batches having
any given expiry date appear exactly in insertion order. -/
theorem add_stock_sorted_stable (name category : String) (price : Rat) (t : Date)
    (cs : List Batch) :
    List.Sorted batchLE (addStocks (Item.new name category price t) cs).expiry_queue ∧
    ∀ dd : Date,
      (addStocks (Item.new name category price t) cs).expiry_queue.filter
          (fun b => b.1 == dd) =
        cs.filter (fun b => b.1 == dd) := by
  constructor
  · exact addStocks_queue_sorted cs _ List.sorted_nil
  · intro dd
    rw [addStocks_queue_filter]
    simp [Item.new]

theorem sumQ_nonneg {l : List Batch} (h : ∀ b ∈ l, 0 < b.2) : 0 ≤ sumQ l := by
  unfold sumQ
  refine List.sum_nonneg ?_
  intro x hx
  obtain ⟨b, hb, rfl⟩ := List.mem_map.mp hx
  exact le_of_lt (h b hb)

theorem evictLoop_results (today : Date) :
    ∀ items : List (String × Item),
      (∀ p ∈ items, List.Sorted batchLE p.2.expiry_queue) →
      (evictLoop today items).1 = items.filterMap (fun p =>
        if sumQ (p.2.expiry_queue.filter (fun b => Date.lt b.1 today)) ≠ 0 then
          some (p.2.name, sumQ (p.2.expiry_queue.filter (fun b => Date.lt b.1 today)))
        else none)
  | [], _ => rfl
  | (n, it) :: rest, h => by
    have hit : List.Sorted batchLE it.expiry_queue := h (n, it) (List.mem_cons_self _ _)
    have hrest := evictLoop_results today rest (fun p hp => h p (List.mem_cons_of_mem _ hp))
    have hfst : (it.remove_expired today).1 =
        sumQ (it.expiry_queue.filter (fun b => Date.lt b.1 today)) := by
      unfold Item.remove_expired
      rw [dropExpired_sorted today hit]
    show (if (it.remove_expired today).1 ≠ 0 then [(it.name, (it.remove_expired today).1)]
        else []) ++ (evictLoop today rest).1 = _
    rw [hfst, hrest, List.filterMap_cons]
    by_cases hz : sumQ (it.expiry_queue.filter (fun b => Date.lt b.1 today)) ≠ 0
    · rw [if_pos hz, if_pos hz]
      rfl
    · rw [if_neg hz, if_neg hz]
      rfl

/-- C5 counterexample: a registry holding "B" before "A" (insertion order),
both with an expired batch. `remove_expired` reports "B" before "A": the
result is in dict insertion order, not item-name sorted order. -/
theorem remove_expired_order_counterexample :
    (((((InventoryManager.empty.add_item "B" "X" 0 ⟨2020, 1, 1⟩).2.add_item
          "A" "X" 0 ⟨2020, 1, 1⟩).2.update_quantity "B" 1 "2020-06-01").2.update_quantity
          "A" 1 "2020-06-02").2.remove_expired ⟨2021, 1, 1⟩).1 =
      [("B", 1), ("A", 1)] ∧ "A" < "B" := by
  constructor
  · decide
  · rw [String.lt_iff_toList_lt]
    decide

/-- C5 (amended): `remove_expired` returns one entry per item with a nonzero
evicted quantity — positive, given positive batch quantities — omits items
with zero eviction, lists the entries in dict insertion order (not sorted by
name), and records nothing on the undo stack. -/
theorem remove_expired_registry_spec (mg : InventoryManager) (today : Date)
    (hsort : ∀ p ∈ mg.items, List.Sorted batchLE p.2.expiry_queue)
    (hpos : ∀ p ∈ mg.items, ∀ b ∈ p.2.expiry_queue, 0 < b.2) :
    (mg.remove_expired today).1 = mg.items.filterMap (fun p =>
      if sumQ (p.2.expiry_queue.filter (fun b => Date.lt b.1 today)) ≠ 0 then
        some (p.2.name, sumQ (p.2.expiry_queue.filter (fun b => Date.lt b.1 today)))
      else none) ∧
    (∀ e ∈ (mg.remove_expired today).1, 0 < e.2) ∧
    (mg.remove_expired today).2.action_stack = mg.action_stack ∧
    (mg.remove_expired today).2.categories = mg.categories := by
  have hres : (mg.remove_expired today).1 = mg.items.filterMap (fun p =>
      if sumQ (p.2.expiry_queue.filter (fun b => Date.lt b.1 today)) ≠ 0 then
        some (p.2.name, sumQ (p.2.expiry_queue.filter (fun b => Date.lt b.1 today)))
      else none) := evictLoop_results today mg.items hsort
  refine ⟨hres, ?_, rfl, rfl⟩
  intro e he
  rw [hres] at he
  obtain ⟨p, hp, hpe⟩ := List.mem_filterMap.mp he
  by_cases hz : sumQ (p.2.expiry_queue.filter (fun b => Date.lt b.1 today)) ≠ 0
  · rw [if_pos hz] at hpe
    obtain rfl := Option.some_injective _ hpe
    have h0 : 0 ≤ sumQ (p.2.expiry_queue.filter (fun b => Date.lt b.1 today)) := by
      refine sumQ_nonneg ?_
      intro b hb
      exact hpos p hp b (List.mem_of_mem_filter hb)
    exact lt_of_le_of_ne h0 (Ne.symm hz)
  · rw [if_neg hz] at hpe
    simp at hpe

/-- C5 witness: a two-item registry with sorted, positive ledgers satisfies
the amended eviction specification; in particular the undo stack is left
untouched. -/
theorem remove_expired_registry_spec_witness :
    ((⟨[("B", ⟨"B", "X", 0, 1, [(⟨2020, 1, 1⟩, 1)], ⟨2020, 1, 1⟩⟩),
        ("A", ⟨"A", "X", 0, 1, [(⟨2020, 1, 2⟩, 1)], ⟨2020, 1, 1⟩⟩)], [],
        {"X"}⟩ : InventoryManager).remove_expired ⟨2021, 1, 1⟩).2.action_stack =
      ([] : List Action) :=
  (remove_expired_registry_spec
    ⟨[("B", ⟨"B", "X", 0, 1, [(⟨2020, 1, 1⟩, 1)], ⟨2020, 1, 1⟩⟩),
      ("A", ⟨"A", "X", 0, 1, [(⟨2020, 1, 2⟩, 1)], ⟨2020, 1, 1⟩⟩)], [], {"X"}⟩
    ⟨2021, 1, 1⟩ (by decide) (by decide)).2.2.1

theorem add_stock_quantity (it : Item) (q : Int) (dt : Date) :
    (it.add_stock q dt).quantity = it.quantity + q := rfl

theorem add_stock_sumQ (it : Item) (q : Int) (dt : Date) :
    sumQ (it.add_stock q dt).expiry_queue = sumQ it.expiry_queue + q := by
  show sumQ (sortBatches (it.expiry_queue ++ [(dt, q)])) = _
  rw [sumQ_sortBatches, sumQ_append]
  simp [sumQ]

theorem evictLoop_items (today : Date) :
    ∀ l : List (String × Item),
      (evictLoop today l).2 = l.map (fun p => (p.1, (p.2.remove_expired today).2))
  | [] => rfl
  | (n, it) :: rest => by
    show (n, (it.remove_expired today).2) :: (evictLoop today rest).2 = _
    rw [evictLoop_items today rest, List.map_cons]

theorem add_item_consistent (mg : InventoryManager) (n c : String) (pr : Rat) (t : Date)
    (h : ∀ p ∈ mg.items, p.2.quantity = sumQ p.2.expiry_queue) :
    ∀ p ∈ (mg.add_item n c pr t).2.items, p.2.quantity = sumQ p.2.expiry_queue := by
  unfold InventoryManager.add_item
  by_cases hl : (lookupItem mg.items n).isNone
  · rw [if_pos hl]
    intro p hp
    rcases List.mem_append.mp hp with hp | hp
    · exact h p hp
    · rcases List.mem_singleton.mp hp with rfl
      rfl
  · rw [if_neg hl]
    exact h

theorem update_quantity_consistent (mg : InventoryManager) (n : String) (q : Int)
    (s : String) (h : ∀ p ∈ mg.items, p.2.quantity = sumQ p.2.expiry_queue) :
    ∀ p ∈ (mg.update_quantity n q s).2.items, p.2.quantity = sumQ p.2.expiry_queue := by
  unfold InventoryManager.update_quantity
  cases hl : lookupItem mg.items n with
  | none => exact h
  | some it =>
    cases hdt : parseDate s with
    | none => exact h
    | some dt =>
      intro p hp
      obtain ⟨p0, hp0, hpe⟩ := List.mem_map.mp hp
      by_cases hk : p0.1 = n
      · rw [if_pos hk] at hpe
        rw [← hpe]
        show (p0.2.add_stock q dt).quantity = sumQ (p0.2.add_stock q dt).expiry_queue
        rw [add_stock_quantity, add_stock_sumQ, h p0 hp0]
      · rw [if_neg hk] at hpe
        rw [← hpe]
        exact h p0 hp0

theorem remove_expired_consistent (mg : InventoryManager) (t : Date)
    (h : ∀ p ∈ mg.items, p.2.quantity = sumQ p.2.expiry_queue) :
    ∀ p ∈ (mg.remove_expired t).2.items, p.2.quantity = sumQ p.2.expiry_queue := by
  intro p hp
  have : (mg.remove_expired t).2.items = (evictLoop t mg.items).2 := rfl
  rw [this, evictLoop_items] at hp
  obtain ⟨p0, hp0, hpe⟩ := List.mem_map.mp hp
  rw [← hpe]
  show (p0.2.remove_expired t).2.quantity = sumQ (p0.2.remove_expired t).2.expiry_queue
  have h1 : (p0.2.remove_expired t).2.quantity =
      p0.2.quantity - (dropExpired t p0.2.expiry_queue).1 := rfl
  have h2 : (p0.2.remove_expired t).2.expiry_queue =
      (dropExpired t p0.2.expiry_queue).2 := rfl
  rw [h1, h2]
  have hsum := dropExpired_sum t p0.2.expiry_queue
  have hq := h p0 hp0
  omega

theorem undo_consistent_nostock (mg : InventoryManager)
    (h : ∀ p ∈ mg.items, p.2.quantity = sumQ p.2.expiry_queue)
    (hguard : ∀ n delta, mg.action_stack.getLast? ≠ some (Action.update_quantity n delta)) :
    ∀ r, mg.undo_last_action = some r →
      ∀ p ∈ r.2.items, p.2.quantity = sumQ p.2.expiry_queue := by
  intro r hr
  cases hL : mg.action_stack.getLast? with
  | none =>
    have hv : mg.undo_last_action = some ("No actions to undo.", mg) := by
      unfold InventoryManager.undo_last_action
      rw [hL]
    rw [hv] at hr
    obtain rfl := Option.some_injective _ hr
    exact h
  | some a =>
    cases a with
    | delete_item n =>
      cases hl : lookupItem mg.items n with
      | none =>
        have hv : mg.undo_last_action = none := by
          unfold InventoryManager.undo_last_action
          rw [hL]
          show (match lookupItem mg.items n with
            | none => none
            | some it =>
              some ("Undid: Deleted item " ++ n,
                ({ items := removeItem mg.items n
                   action_stack := mg.action_stack.dropLast
                   categories := mg.categories.erase it.category } : InventoryManager))) =
            none
          rw [hl]
        rw [hv] at hr
        cases hr
      | some it =>
        have hv : mg.undo_last_action =
            some ("Undid: Deleted item " ++ n,
              ⟨removeItem mg.items n, mg.action_stack.dropLast,
                mg.categories.erase it.category⟩) := by
          unfold InventoryManager.undo_last_action
          rw [hL]
          show (match lookupItem mg.items n with
            | none => none
            | some it =>
              some ("Undid: Deleted item " ++ n,
                ({ items := removeItem mg.items n
                   action_stack := mg.action_stack.dropLast
                   categories := mg.categories.erase it.category } : InventoryManager))) =
            _
          rw [hl]
        rw [hv] at hr
        obtain rfl := Option.some_injective _ hr
        intro p hp
        exact h p (List.mem_of_mem_filter hp)
    | update_quantity n delta => exact absurd hL (hguard n delta)

theorem runNoStockUndo_consistent :
    ∀ (ops : List Op) (mg : InventoryManager),
      (∀ p ∈ mg.items, p.2.quantity = sumQ p.2.expiry_queue) →
      ∀ mg', runNoStockUndo mg ops = some mg' →
      ∀ p ∈ mg'.items, p.2.quantity = sumQ p.2.expiry_queue
  | [], mg, h, mg', hrun => by
    obtain rfl := Option.some_injective _ hrun
    exact h
  | op :: ops, mg, h, mg', hrun => by
    cases op with
    | addItem n c pr t =>
      have hrun' : runNoStockUndo (mg.add_item n c pr t).2 ops = some mg' := hrun
      exact runNoStockUndo_consistent ops _ (add_item_consistent mg n c pr t h) mg' hrun'
    | addStock n q s =>
      have hrun' : runNoStockUndo (mg.update_quantity n q s).2 ops = some mg' := hrun
      exact runNoStockUndo_consistent ops _ (update_quantity_consistent mg n q s h)
        mg' hrun'
    | evictAll t =>
      have hrun' : runNoStockUndo (mg.remove_expired t).2 ops = some mg' := hrun
      exact runNoStockUndo_consistent ops _ (remove_expired_consistent mg t h) mg' hrun'
    | undoLast =>
      cases hL : mg.action_stack.getLast? with
      | none =>
        have hmg : mg.undo_last_action = some ("No actions to undo.", mg) := by
          unfold InventoryManager.undo_last_action
          rw [hL]
        have hrun' : runNoStockUndo mg ops = some mg' := by
          have : runNoStockUndo mg (Op.undoLast :: ops) =
              (if (match Op.undoLast, mg.action_stack.getLast? with
                | Op.undoLast, some (Action.update_quantity _ _) => false
                | _, _ => true) = true then
                match step mg Op.undoLast with
                | none => none
                | some mg1 => runNoStockUndo mg1 ops
              else none) := rfl
          rw [this, hL] at hrun
          simp only [step, hmg, Option.map_some] at hrun
          exact hrun
        exact runNoStockUndo_consistent ops mg h mg' hrun'
      | some a =>
        cases a with
        | update_quantity n delta =>
          have hrw : runNoStockUndo mg (Op.undoLast :: ops) =
              (if (match Op.undoLast, mg.action_stack.getLast? with
                | Op.undoLast, some (Action.update_quantity _ _) => false
                | _, _ => true) = true then
                match step mg Op.undoLast with
                | none => none
                | some mg1 => runNoStockUndo mg1 ops
              else none) := rfl
          rw [hrw, hL] at hrun
          exact Option.noConfusion hrun
        | delete_item n =>
          have hstep : runNoStockUndo mg (Op.undoLast :: ops) =
              (match (mg.undo_last_action).map Prod.snd with
                | none => none
                | some mg1 => runNoStockUndo mg1 ops) := by
            have hrw : runNoStockUndo mg (Op.undoLast :: ops) =
                (if (match Op.undoLast, mg.action_stack.getLast? with
                  | Op.undoLast, some (Action.update_quantity _ _) => false
                  | _, _ => true) = true then
                  match step mg Op.undoLast with
                  | none => none
                  | some mg1 => runNoStockUndo mg1 ops
                else none) := rfl
            rw [hrw, hL]
            rfl
          rw [hstep] at hrun
          cases hu : mg.undo_last_action with
          | none =>
            rw [hu] at hrun
            exact Option.noConfusion hrun
          | some r =>
            rw [hu] at hrun
            have hinv := undo_consistent_nostock mg h
              (fun n' delta' hc => by rw [hL] at hc; cases hc) r hu
            exact runNoStockUndo_consistent ops r.2 hinv mg' hrun

/-- C1 (amended): in every state reachable by core operations in which
`UndoLast` never pops an `AddStock` record, each item's `quantity` equals
the sum of the quantities of its live batches. (Undoing an `AddStock`
breaks the equality, as the counterexample shows.) -/
theorem ledger_sum_invariant (ops : List Op) (mg : InventoryManager)
    (h : runNoStockUndo InventoryManager.empty ops = some mg) :
    ∀ p ∈ mg.items, p.2.quantity = sumQ p.2.expiry_queue :=
  runNoStockUndo_consistent ops InventoryManager.empty (by intro p hp; cases hp) mg h

/-- C1 witness: create an item, stock it twice, evict: the surviving state
satisfies the ledger-sum equality. -/
theorem ledger_sum_invariant_witness :
    ((⟨"Milk", "Dairy", 50, 7, [(⟨2099, 1, 1⟩, 7)], ⟨2025, 1, 1⟩⟩ : Item).quantity =
      sumQ (⟨"Milk", "Dairy", 50, 7, [(⟨2099, 1, 1⟩, 7)], ⟨2025, 1, 1⟩⟩ : Item).expiry_queue) :=
  ledger_sum_invariant
    [Op.addItem "Milk" "Dairy" 50 ⟨2025, 1, 1⟩, Op.addStock "Milk" 2 "2020-06-01",
      Op.addStock "Milk" 7 "2099-01-01", Op.evictAll ⟨2025, 1, 1⟩]
    ⟨[("Milk", ⟨"Milk", "Dairy", 50, 7, [(⟨2099, 1, 1⟩, 7)], ⟨2025, 1, 1⟩⟩)],
      [Action.delete_item "Milk", Action.update_quantity "Milk" (-2),
        Action.update_quantity "Milk" (-7)], {"Dairy"}⟩
    (by decide)
    ("Milk", ⟨"Milk", "Dairy", 50, 7, [(⟨2099, 1, 1⟩, 7)], ⟨2025, 1, 1⟩⟩)
    (by decide)

/-- C1 counterexample: create "A", stock 5 units, undo the stocking: the
item's `quantity` is 0 while its sole batch still carries quantity 5, so
the claimed invariant fails on a reachable state. -/
theorem ledger_sum_counterexample :
    (run InventoryManager.empty
      [Op.addItem "A" "X" 0 ⟨2025, 1, 1⟩, Op.addStock "A" 5 "2030-01-01",
        Op.undoLast]).map
      (fun mg => mg.items.map (fun p => (p.2.quantity, sumQ p.2.expiry_queue))) =
      some [(0, 5)] ∧ (0 : Int) ≠ 5 := by
  constructor
  · decide
  · decide

theorem lookupItem_none_not_mem {l : List (String × Item)} {n : String}
    (h : lookupItem l n = none) : ∀ p ∈ l, p.1 ≠ n := by
  induction l with
  | nil => intro p hp; cases hp
  | cons q rest ih =>
    obtain ⟨k, it⟩ := q
    rw [lookupItem_cons] at h
    by_cases hk : k = n
    · rw [if_pos hk] at h
      cases h
    · rw [if_neg hk] at h
      intro p hp
      rcases List.mem_cons.mp hp with rfl | hp
      · exact hk
      · exact ih h p hp

theorem lookupItem_of_mem_nodup {l : List (String × Item)}
    (hnd : (l.map Prod.fst).Nodup) {p : String × Item} (hp : p ∈ l) :
    lookupItem l p.1 = some p.2 := by
  induction l with
  | nil => cases hp
  | cons q rest ih =>
    obtain ⟨k, it⟩ := q
    rw [List.map_cons, List.nodup_cons] at hnd
    rcases List.mem_cons.mp hp with rfl | hp
    · rw [lookupItem_cons, if_pos rfl]
    · have hk : k ≠ p.1 := by
        intro hc
        apply hnd.1
        rw [hc]
        exact List.mem_map.mpr ⟨p, hp, rfl⟩
      rw [lookupItem_cons, if_neg hk]
      exact ih hnd.2 hp

theorem mapItem_keys (l : List (String × Item)) (n : String) (f : Item → Item) :
    (mapItem l n f).map Prod.fst = l.map Prod.fst := by
  induction l with
  | nil => rfl
  | cons q rest ih =>
    obtain ⟨k, it⟩ := q
    rw [mapItem_cons, List.map_cons, List.map_cons, ih]
    by_cases hk : k = n
    · rw [if_pos hk]
    · rw [if_neg hk]

theorem mapItem_category_witness (l : List (String × Item)) (n : String)
    (f : Item → Item) (hf : ∀ it, (f it).category = it.category) {c : String}
    (h : ∃ p ∈ l, p.2.category = c) : ∃ p ∈ mapItem l n f, p.2.category = c := by
  obtain ⟨p0, hp0, hc0⟩ := h
  by_cases hk : p0.1 = n
  · refine ⟨(p0.1, f p0.2), ?_, ?_⟩
    · have : (if p0.1 = n then (p0.1, f p0.2) else p0) ∈ mapItem l n f :=
        List.mem_map_of_mem _ hp0
      rwa [if_pos hk] at this
    · show (f p0.2).category = c
      rw [hf p0.2, hc0]
  · refine ⟨p0, ?_, hc0⟩
    have : (if p0.1 = n then (p0.1, f p0.2) else p0) ∈ mapItem l n f :=
      List.mem_map_of_mem _ hp0
    rwa [if_neg hk] at this

theorem add_item_inv6 (mg : InventoryManager) (n c : String) (pr : Rat) (t : Date)
    (hnd : (mg.items.map Prod.fst).Nodup)
    (hsub : ∀ c' ∈ mg.categories, ∃ p ∈ mg.items, p.2.category = c') :
    ((mg.add_item n c pr t).2.items.map Prod.fst).Nodup ∧
    (∀ c' ∈ (mg.add_item n c pr t).2.categories,
      ∃ p ∈ (mg.add_item n c pr t).2.items, p.2.category = c') := by
  unfold InventoryManager.add_item
  by_cases hl : (lookupItem mg.items n).isNone
  · rw [if_pos hl]
    have hnone : lookupItem mg.items n = none := Option.isNone_iff_eq_none.mp hl
    constructor
    · rw [List.map_append, List.nodup_append]
      refine ⟨hnd, List.nodup_singleton n, ?_⟩
      intro a ha hb
      rcases List.mem_singleton.mp hb with rfl
      obtain ⟨p, hp, hpa⟩ := List.mem_map.mp ha
      exact lookupItem_none_not_mem hnone p hp hpa
    · intro c' hc'
      rcases Finset.mem_insert.mp hc' with rfl | hc'
      · exact ⟨(n, Item.new n c' pr t), List.mem_append_right _ (List.mem_singleton_self _),
          rfl⟩
      · obtain ⟨p, hp, hpc⟩ := hsub c' hc'
        exact ⟨p, List.mem_append_left _ hp, hpc⟩
  · rw [if_neg hl]
    exact ⟨hnd, hsub⟩

theorem update_quantity_inv6 (mg : InventoryManager) (n : String) (q : Int) (s : String)
    (hnd : (mg.items.map Prod.fst).Nodup)
    (hsub : ∀ c' ∈ mg.categories, ∃ p ∈ mg.items, p.2.category = c') :
    ((mg.update_quantity n q s).2.items.map Prod.fst).Nodup ∧
    (∀ c' ∈ (mg.update_quantity n q s).2.categories,
      ∃ p ∈ (mg.update_quantity n q s).2.items, p.2.category = c') := by
  unfold InventoryManager.update_quantity
  cases hl : lookupItem mg.items n with
  | none => exact ⟨hnd, hsub⟩
  | some it =>
    cases hdt : parseDate s with
    | none => exact ⟨hnd, hsub⟩
    | some dt =>
      constructor
      · show ((mapItem mg.items n (fun i => i.add_stock q dt)).map Prod.fst).Nodup
        rw [mapItem_keys]
        exact hnd
      · intro c' hc'
        show ∃ p ∈ mapItem mg.items n (fun i => i.add_stock q dt), p.2.category = c'
        exact mapItem_category_witness mg.items n (fun i => i.add_stock q dt)
          (fun _ => rfl) (hsub c' hc')

theorem remove_expired_inv6 (mg : InventoryManager) (t : Date)
    (hnd : (mg.items.map Prod.fst).Nodup)
    (hsub : ∀ c' ∈ mg.categories, ∃ p ∈ mg.items, p.2.category = c') :
    ((mg.remove_expired t).2.items.map Prod.fst).Nodup ∧
    (∀ c' ∈ (mg.remove_expired t).2.categories,
      ∃ p ∈ (mg.remove_expired t).2.items, p.2.category = c') := by
  have hit : (mg.remove_expired t).2.items =
      mg.items.map (fun p => (p.1, (p.2.remove_expired t).2)) := evictLoop_items t mg.items
  constructor
  · rw [hit, List.map_map]
    exact hnd
  · intro c' hc'
    obtain ⟨p, hp, hpc⟩ := hsub c' hc'
    refine ⟨(p.1, (p.2.remove_expired t).2), ?_, hpc⟩
    rw [hit]
    exact List.mem_map_of_mem _ hp

theorem undo_inv6 (mg : InventoryManager)
    (hnd : (mg.items.map Prod.fst).Nodup)
    (hsub : ∀ c' ∈ mg.categories, ∃ p ∈ mg.items, p.2.category = c') :
    ∀ r, mg.undo_last_action = some r →
      ((r.2.items.map Prod.fst).Nodup ∧
        (∀ c' ∈ r.2.categories, ∃ p ∈ r.2.items, p.2.category = c')) := by
  intro r hr
  cases hL : mg.action_stack.getLast? with
  | none =>
    have hv : mg.undo_last_action = some ("No actions to undo.", mg) := by
      unfold InventoryManager.undo_last_action
      rw [hL]
    rw [hv] at hr
    obtain rfl := Option.some_injective _ hr
    exact ⟨hnd, hsub⟩
  | some a =>
    cases a with
    | delete_item n =>
      cases hl : lookupItem mg.items n with
      | none =>
        have hv : mg.undo_last_action = none := by
          unfold InventoryManager.undo_last_action
          rw [hL]
          show (match lookupItem mg.items n with
            | none => none
            | some it =>
              some ("Undid: Deleted item " ++ n,
                ({ items := removeItem mg.items n
                   action_stack := mg.action_stack.dropLast
                   categories := mg.categories.erase it.category } : InventoryManager))) =
            none
          rw [hl]
        rw [hv] at hr
        cases hr
      | some it =>
        have hv : mg.undo_last_action =
            some ("Undid: Deleted item " ++ n,
              ⟨removeItem mg.items n, mg.action_stack.dropLast,
                mg.categories.erase it.category⟩) := by
          unfold InventoryManager.undo_last_action
          rw [hL]
          show (match lookupItem mg.items n with
            | none => none
            | some it =>
              some ("Undid: Deleted item " ++ n,
                ({ items := removeItem mg.items n
                   action_stack := mg.action_stack.dropLast
                   categories := mg.categories.erase it.category } : InventoryManager))) =
            _
          rw [hl]
        rw [hv] at hr
        obtain rfl := Option.some_injective _ hr
        constructor
        · show ((removeItem mg.items n).map Prod.fst).Nodup
          exact List.Nodup.sublist (List.Sublist.map _ (List.filter_sublist _)) hnd
        · intro c' hc'
          show ∃ p ∈ removeItem mg.items n, p.2.category = c'
          obtain ⟨hcne, hcin⟩ := Finset.mem_erase.mp hc'
          obtain ⟨p, hp, hpc⟩ := hsub c' hcin
          have hpn : p.1 ≠ n := by
            intro hc
            have := lookupItem_of_mem_nodup hnd hp
            rw [hc, hl] at this
            obtain rfl := Option.some_injective _ this
            exact hcne (hpc ▸ rfl)
          refine ⟨p, ?_, hpc⟩
          exact List.mem_filter.mpr ⟨hp, decide_eq_true hpn⟩
    | update_quantity n delta =>
      cases hl : lookupItem mg.items n with
      | none =>
        have hv : mg.undo_last_action = none := by
          unfold InventoryManager.undo_last_action
          rw [hL]
          show (match lookupItem mg.items n with
            | none => none
            | some _ =>
              some ("Undid: Quantity adjustment for " ++ n,
                ({ mg with
                  items := mapItem mg.items n
                    (fun i => { i with quantity := i.quantity + delta })
                  action_stack := mg.action_stack.dropLast } : InventoryManager))) =
            none
          rw [hl]
        rw [hv] at hr
        cases hr
      | some it =>
        have hv : mg.undo_last_action =
            some ("Undid: Quantity adjustment for " ++ n,
              ⟨mapItem mg.items n (fun i => { i with quantity := i.quantity + delta }),
                mg.action_stack.dropLast, mg.categories⟩) := by
          unfold InventoryManager.undo_last_action
          rw [hL]
          show (match lookupItem mg.items n with
            | none => none
            | some _ =>
              some ("Undid: Quantity adjustment for " ++ n,
                ({ mg with
                  items := mapItem mg.items n
                    (fun i => { i with quantity := i.quantity + delta })
                  action_stack := mg.action_stack.dropLast } : InventoryManager))) =
            _
          rw [hl]
        rw [hv] at hr
        obtain rfl := Option.some_injective _ hr
        constructor
        · show ((mapItem mg.items n (fun i => { i with quantity := i.quantity + delta })).map
            Prod.fst).Nodup
          rw [mapItem_keys]
          exact hnd
        · intro c' hc'
          show ∃ p ∈ mapItem mg.items n (fun i => { i with quantity := i.quantity + delta }),
            p.2.category = c'
          exact mapItem_category_witness mg.items n
            (fun i => { i with quantity := i.quantity + delta }) (fun _ => rfl)
            (hsub c' hc')

theorem run_inv6 :
    ∀ (ops : List Op) (mg : InventoryManager),
      (mg.items.map Prod.fst).Nodup →
      (∀ c' ∈ mg.categories, ∃ p ∈ mg.items, p.2.category = c') →
      ∀ mg', run mg ops = some mg' →
      ((mg'.items.map Prod.fst).Nodup ∧
        (∀ c' ∈ mg'.categories, ∃ p ∈ mg'.items, p.2.category = c'))
  | [], mg, hnd, hsub, mg', hrun => by
    obtain rfl := Option.some_injective _ hrun
    exact ⟨hnd, hsub⟩
  | op :: ops, mg, hnd, hsub, mg', hrun => by
    cases op with
    | addItem n c pr t =>
      have hrun' : run (mg.add_item n c pr t).2 ops = some mg' := hrun
      have hinv := add_item_inv6 mg n c pr t hnd hsub
      exact run_inv6 ops _ hinv.1 hinv.2 mg' hrun'
    | addStock n q s =>
      have hrun' : run (mg.update_quantity n q s).2 ops = some mg' := hrun
      have hinv := update_quantity_inv6 mg n q s hnd hsub
      exact run_inv6 ops _ hinv.1 hinv.2 mg' hrun'
    | evictAll t =>
      have hrun' : run (mg.remove_expired t).2 ops = some mg' := hrun
      have hinv := remove_expired_inv6 mg t hnd hsub
      exact run_inv6 ops _ hinv.1 hinv.2 mg' hrun'
    | undoLast =>
      have hstep : run mg (Op.undoLast :: ops) =
          (match (mg.undo_last_action).map Prod.snd with
            | none => none
            | some mg1 => run mg1 ops) := rfl
      rw [hstep] at hrun
      cases hu : mg.undo_last_action with
      | none =>
        rw [hu] at hrun
        exact Option.noConfusion hrun
      | some r =>
        rw [hu] at hrun
        have hinv := undo_inv6 mg hnd hsub r hu
        exact run_inv6 ops r.2 hinv.1 hinv.2 mg' hrun

/-- C6 (amended): in every reachable state the category set is a subset of
the categories referenced by at least one live item; the claimed equality
fails after undoing the creation of an item whose category is shared, as
the counterexample shows. -/
theorem categories_subset_invariant (ops : List Op) (mg : InventoryManager)
    (h : run InventoryManager.empty ops = some mg) :
    ∀ c ∈ mg.categories, ∃ p ∈ mg.items, p.2.category = c :=
  (run_inv6 ops InventoryManager.empty List.nodup_nil
    (by intro c hc; cases hc) mg h).2

/-- C6 witness: after creating two items the category set only holds
categories referenced by live items. -/
theorem categories_subset_invariant_witness :
    ∃ p ∈ [("A", (⟨"A", "Dairy", 0, 0, [], ⟨2025, 1, 1⟩⟩ : Item)),
           ("B", (⟨"B", "Bread", 0, 0, [], ⟨2025, 1, 1⟩⟩ : Item))],
      p.2.category = "Bread" :=
  categories_subset_invariant
    [Op.addItem "A" "Dairy" 0 ⟨2025, 1, 1⟩, Op.addItem "B" "Bread" 0 ⟨2025, 1, 1⟩]
    ⟨[("A", ⟨"A", "Dairy", 0, 0, [], ⟨2025, 1, 1⟩⟩),
      ("B", ⟨"B", "Bread", 0, 0, [], ⟨2025, 1, 1⟩⟩)],
      [Action.delete_item "A", Action.delete_item "B"],
      insert "Bread" (insert "Dairy" ∅)⟩
    rfl "Bread" (by decide)

/-- C6 counterexample: create "A" and "B", both of category "Dairy", then
undo: item "A" still references "Dairy" but the category set is empty, so
the set is not equal to the referenced-category set. -/
theorem categories_counterexample :
    (run InventoryManager.empty
      [Op.addItem "A" "Dairy" 0 ⟨2025, 1, 1⟩, Op.addItem "B" "Dairy" 0 ⟨2025, 1, 1⟩,
        Op.undoLast]).map
      (fun mg => (mg.categories, mg.items.map (fun p => p.2.category))) =
      some (∅, ["Dairy"]) ∧ (∅ : Finset String) ≠ {"Dairy"} := by
  constructor
  · rfl
  · intro hc
    have : "Dairy" ∈ (∅ : Finset String) := hc ▸ Finset.mem_singleton_self "Dairy"
    exact absurd this (Finset.not_mem_empty "Dairy")

theorem add_item_eq_of_none {mg : InventoryManager} {n : String}
    (h : lookupItem mg.items n = none) (c : String) (pr : Rat) (t : Date) :
    mg.add_item n c pr t =
      (true, ⟨mg.items ++ [(n, Item.new n c pr t)],
        mg.action_stack ++ [Action.delete_item n], insert c mg.categories⟩) := by
  unfold InventoryManager.add_item
  rw [h]
  rfl

theorem update_quantity_eq_of_some {mg : InventoryManager} {n : String} {it : Item}
    {s : String} {dt : Date} (hit : lookupItem mg.items n = some it)
    (hdt : parseDate s = some dt) (q : Int) :
    mg.update_quantity n q s =
      (true, ⟨mapItem mg.items n (fun i => i.add_stock q dt),
        mg.action_stack ++ [Action.update_quantity n (-q)], mg.categories⟩) := by
  unfold InventoryManager.update_quantity
  rw [hit, hdt]

theorem lookupItem_append_entry_ne {k' k : String} (h : k' ≠ k)
    (l : List (String × Item)) (x : Item) :
    lookupItem (l ++ [(k, x)]) k' = lookupItem l k' := by
  induction l with
  | nil =>
    show (if k = k' then some x else none) = none
    rw [if_neg (fun hc => h hc.symm)]
  | cons p rest ih =>
    obtain ⟨k0, it0⟩ := p
    rw [List.cons_append, lookupItem_cons, lookupItem_cons, ih]

theorem lookupItem_append_self {l : List (String × Item)} {n : String}
    (h : lookupItem l n = none) (x : Item) :
    lookupItem (l ++ [(n, x)]) n = some x := by
  rw [lookupItem_append_of_none h, lookupItem_cons, if_pos rfl]

theorem parseDates_map {ds : List Date} (h : ∀ d ∈ ds, ValidDate d) :
    parseDates (ds.map dateToString) = some ds := by
  induction ds with
  | nil => rfl
  | cons d rest ih =>
    rw [List.map_cons]
    show (match parseDate (dateToString d) with
      | none => none
      | some dt => (parseDates (rest.map dateToString)).map (fun l => dt :: l)) = _
    rw [parseDate_dateToString (h d (List.mem_cons_self d rest)),
      ih (fun d' hd' => h d' (List.mem_cons_of_mem d hd'))]
    rfl

theorem addStocks_quantity : ∀ (cs : List Batch) (it : Item),
    (addStocks it cs).quantity = it.quantity + sumQ cs
  | [], it => by simp [addStocks, sumQ]
  | c :: cs, it => by
    rw [addStocks_cons, addStocks_quantity cs, add_stock_quantity]
    show it.quantity + c.2 + sumQ cs = _
    have : sumQ (c :: cs) = c.2 + sumQ cs := by simp [sumQ]
    rw [this]
    ring

theorem addStocks_queue_perm : ∀ (cs : List Batch) (it : Item),
    (addStocks it cs).expiry_queue.Perm (it.expiry_queue ++ cs)
  | [], it => by simp [addStocks]
  | c :: cs, it => by
    rw [addStocks_cons]
    refine (addStocks_queue_perm cs (it.add_stock c.2 c.1)).trans ?_
    have h1 : (it.add_stock c.2 c.1).expiry_queue.Perm (it.expiry_queue ++ [(c.1, c.2)]) :=
      List.perm_insertionSort batchLE _
    refine (h1.append_right cs).trans ?_
    rw [List.append_assoc, List.singleton_append]

theorem sumQ_units (ds : List Date) :
    sumQ (ds.map (fun d => (d, (1 : Int)))) = (ds.length : Int) := by
  induction ds with
  | nil => rfl
  | cons d rest ih =>
    rw [List.map_cons]
    have : sumQ ((d, (1 : Int)) :: rest.map (fun d => (d, (1 : Int)))) =
        1 + sumQ (rest.map (fun d => (d, (1 : Int)))) := by simp [sumQ]
    rw [this, ih, List.length_cons]
    push_cast
    ring

theorem fold_update (n : String) :
    ∀ (ds : List Date) (m : InventoryManager) (it0 : Item),
      (∀ d ∈ ds, ValidDate d) → lookupItem m.items n = some it0 →
      (lookupItem
          ((ds.foldl (fun m dt => (m.update_quantity n 1 (dateToString dt)).2) m)).items n =
        some (addStocks it0 (ds.map (fun d => (d, 1)))) ∧
       (∀ k, k ≠ n →
        lookupItem
            ((ds.foldl (fun m dt => (m.update_quantity n 1 (dateToString dt)).2) m)).items k =
          lookupItem m.items k))
  | [], m, it0, _, hit => ⟨by rw [List.foldl_nil]; exact hit ▸ rfl, fun k _ => by
      rw [List.foldl_nil]⟩
  | d :: ds, m, it0, hvd, hit => by
    rw [List.foldl_cons]
    have hd : ValidDate d := hvd d (List.mem_cons_self d ds)
    have heq := update_quantity_eq_of_some hit (parseDate_dateToString hd) 1
    have hstep : (m.update_quantity n 1 (dateToString d)).2 =
        ⟨mapItem m.items n (fun i => i.add_stock 1 d),
          m.action_stack ++ [Action.update_quantity n (-1)], m.categories⟩ := by
      rw [heq]
    rw [hstep]
    have hit1 : lookupItem (mapItem m.items n (fun i => i.add_stock 1 d)) n =
        some (it0.add_stock 1 d) := by
      rw [lookupItem_mapItem_self, hit]
      rfl
    have ih := fold_update n ds
      ⟨mapItem m.items n (fun i => i.add_stock 1 d),
        m.action_stack ++ [Action.update_quantity n (-1)], m.categories⟩
      (it0.add_stock 1 d) (fun d' hd' => hvd d' (List.mem_cons_of_mem d hd')) hit1
    refine ⟨?_, ?_⟩
    · rw [ih.1]
      rw [List.map_cons, addStocks_cons]
    · intro k hk
      rw [ih.2 k hk]
      show lookupItem (mapItem m.items n fun i => i.add_stock 1 d) k = lookupItem m.items k
      exact lookupItem_mapItem_ne m.items (fun i => i.add_stock 1 d) hk

theorem importLoop_spec (today : Date) :
    ∀ (src : List (String × Item)) (m : InventoryManager),
      ((src.map Prod.fst).Nodup) →
      (∀ p ∈ src, lookupItem m.items p.1 = none) →
      (∀ p ∈ src, ∀ b ∈ p.2.expiry_queue, ValidDate b.1) →
      (importLoop today m (src.map (fun p => (p.1, p.2.to_dict)))).1 = true ∧
      (∀ k, (∀ p ∈ src, p.1 ≠ k) →
        lookupItem (importLoop today m (src.map (fun p => (p.1, p.2.to_dict)))).2.items k =
          lookupItem m.items k) ∧
      (∀ p ∈ src, ∃ it',
        lookupItem (importLoop today m (src.map (fun p => (p.1, p.2.to_dict)))).2.items
          p.1 = some it' ∧
        it'.quantity = (p.2.expiry_queue.length : Int) ∧
        (∀ d : Date, d ∈ it'.expiry_queue.map Prod.fst ↔
          d ∈ p.2.expiry_queue.map Prod.fst))
  | [], m, _, _, _ => ⟨rfl, fun _ _ => rfl, fun p hp => absurd hp (List.not_mem_nil p)⟩
  | p :: src', m, hnd, hfresh, hvd => by
    obtain ⟨n, it⟩ := p
    have h1 : lookupItem m.items n = none := hfresh (n, it) (List.mem_cons_self _ _)
    rw [List.map_cons] at hnd
    have hn : n ∉ src'.map Prod.fst := (List.nodup_cons.mp hnd).1
    have hnd' : (src'.map Prod.fst).Nodup := (List.nodup_cons.mp hnd).2
    have hne' : ∀ p' ∈ src', p'.1 ≠ n := by
      intro p' hp' hc
      exact hn (hc ▸ List.mem_map.mpr ⟨p', hp', rfl⟩)
    have hvq : ∀ d ∈ it.expiry_queue.map Prod.fst, ValidDate d := by
      intro d hd
      obtain ⟨b, hb, rfl⟩ := List.mem_map.mp hd
      exact hvd (n, it) (List.mem_cons_self _ _) b hb
    have hparse : parseDates (it.to_dict.expiry_dates) =
        some (it.expiry_queue.map Prod.fst) := by
      have h2 : it.to_dict.expiry_dates =
          (it.expiry_queue.map Prod.fst).map dateToString := by
        show it.expiry_queue.map (fun b => dateToString b.1) = _
        rw [List.map_map]
        rfl
      rw [h2]
      exact parseDates_map hvq
    have hA : (m.add_item n it.to_dict.category it.to_dict.price today).2 =
        ⟨m.items ++ [(n, Item.new n it.to_dict.category it.to_dict.price today)],
          m.action_stack ++ [Action.delete_item n],
          insert it.to_dict.category m.categories⟩ :=
      congrArg Prod.snd (add_item_eq_of_none h1 _ _ _)
    have hitA : lookupItem
        (m.add_item n it.to_dict.category it.to_dict.price today).2.items n =
        some (Item.new n it.to_dict.category it.to_dict.price today) := by
      rw [hA]
      exact lookupItem_append_self h1 _
    have hfold := fold_update n (it.expiry_queue.map Prod.fst)
      (m.add_item n it.to_dict.category it.to_dict.price today).2
      (Item.new n it.to_dict.category it.to_dict.price today) hvq hitA
    have hloop : importLoop today m
        (((n, it) :: src').map (fun p => (p.1, p.2.to_dict))) =
        importLoop today
          ((it.expiry_queue.map Prod.fst).foldl
            (fun m2 dt => (m2.update_quantity n 1 (dateToString dt)).2)
            (m.add_item n it.to_dict.category it.to_dict.price today).2)
          (src'.map (fun p => (p.1, p.2.to_dict))) := by
      rw [List.map_cons]
      show (match parseDates it.to_dict.expiry_dates with
        | none => (false, (m.add_item n it.to_dict.category it.to_dict.price today).2)
        | some ds => importLoop today
            (ds.foldl (fun m2 dt => (m2.update_quantity n 1 (dateToString dt)).2)
              (m.add_item n it.to_dict.category it.to_dict.price today).2)
            (src'.map (fun p : String × Item => (p.1, p.2.to_dict)))) = _
      rw [hparse]
    have hfreshB : ∀ p' ∈ src',
        lookupItem ((it.expiry_queue.map Prod.fst).foldl
          (fun m2 dt => (m2.update_quantity n 1 (dateToString dt)).2)
          (m.add_item n it.to_dict.category it.to_dict.price today).2).items p'.1 =
        none := by
      intro p' hp'
      rw [hfold.2 p'.1 (hne' p' hp'), hA]
      show lookupItem (m.items ++
        [(n, Item.new n it.to_dict.category it.to_dict.price today)]) p'.1 = none
      rw [lookupItem_append_entry_ne (hne' p' hp') m.items
        (Item.new n it.to_dict.category it.to_dict.price today)]
      exact hfresh p' (List.mem_cons_of_mem _ hp')
    have ih := importLoop_spec today src'
      ((it.expiry_queue.map Prod.fst).foldl
        (fun m2 dt => (m2.update_quantity n 1 (dateToString dt)).2)
        (m.add_item n it.to_dict.category it.to_dict.price today).2)
      hnd' hfreshB (fun p' hp' => hvd p' (List.mem_cons_of_mem _ hp'))
    rw [hloop]
    refine ⟨ih.1, ?_, ?_⟩
    · intro k hk
      have hkn : n ≠ k := hk (n, it) (List.mem_cons_self _ _)
      rw [ih.2.1 k (fun p' hp' => hk p' (List.mem_cons_of_mem _ hp')),
        hfold.2 k (fun hc => hkn hc.symm), hA]
      show lookupItem (m.items ++
        [(n, Item.new n it.to_dict.category it.to_dict.price today)]) k =
        lookupItem m.items k
      exact lookupItem_append_entry_ne (fun hc => hkn hc.symm) m.items
        (Item.new n it.to_dict.category it.to_dict.price today)
    · intro p hp
      rcases List.mem_cons.mp hp with rfl | hp'
      · refine ⟨addStocks (Item.new n it.to_dict.category it.to_dict.price today)
          ((it.expiry_queue.map Prod.fst).map (fun d => (d, 1))), ?_, ?_, ?_⟩
        · rw [ih.2.1 n hne', hfold.1]
        · rw [addStocks_quantity]
          show (0 : Int) + sumQ _ = _
          rw [sumQ_units, List.length_map, zero_add]
        · intro d
          have hperm := addStocks_queue_perm
            ((it.expiry_queue.map Prod.fst).map (fun d => (d, (1 : Int))))
            (Item.new n it.to_dict.category it.to_dict.price today)
          rw [show (Item.new n it.to_dict.category it.to_dict.price today).expiry_queue =
            [] from rfl, List.nil_append] at hperm
          rw [(hperm.map Prod.fst).mem_iff, List.map_map]
          show d ∈ (it.expiry_queue.map Prod.fst).map (fun d => d) ↔ _
          rw [List.map_id']
      · exact ih.2.2 p hp'

/-- C7 counterexample: a registry whose item "A" holds one batch of quantity
2 exports one date string for that batch; importing replays it as a single
unit batch, so the imported total quantity is 1, not the original 2. -/
theorem roundtrip_counterexample :
    ((InventoryManager.empty.import_data
        (((InventoryManager.empty.add_item "A" "X" 0 ⟨2025, 1, 1⟩).2.update_quantity
          "A" 2 "2030-01-01").2.export_data) ⟨2026, 1, 1⟩).2.items.map
      (fun p => (p.1, p.2.quantity))) = [("A", 1)] ∧
    ((((InventoryManager.empty.add_item "A" "X" 0 ⟨2025, 1, 1⟩).2.update_quantity
        "A" 2 "2030-01-01").2.items.map (fun p => (p.1, p.2.quantity))) = [("A", 2)]) ∧
    (1 : Int) ≠ 2 := by
  refine ⟨?_, ?_, ?_⟩
  · decide
  · decide
  · decide

/-- C7 (amended): exporting a registry and importing the snapshot into a
fresh registry succeeds and reproduces, for each item, one unit batch per
original batch — a total quantity equal to the item's number of batches,
not the original total — and the same set of distinct expiry dates. -/
theorem roundtrip_spec (mg : InventoryManager) (today : Date)
    (hnd : (mg.items.map Prod.fst).Nodup)
    (hvd : ∀ p ∈ mg.items, ∀ b ∈ p.2.expiry_queue, ValidDate b.1) :
    (InventoryManager.empty.import_data mg.export_data today).1 = true ∧
    ∀ p ∈ mg.items, ∃ it',
      lookupItem (InventoryManager.empty.import_data mg.export_data today).2.items p.1 =
        some it' ∧
      it'.quantity = (p.2.expiry_queue.length : Int) ∧
      (∀ d : Date, d ∈ it'.expiry_queue.map Prod.fst ↔
        d ∈ p.2.expiry_queue.map Prod.fst) := by
  have h := importLoop_spec today mg.items InventoryManager.empty hnd
    (fun p _ => rfl) hvd
  exact ⟨h.1, h.2.2⟩

/-- C7 witness: a one-item registry with two unit batches round-trips with
the import succeeding. -/
theorem roundtrip_spec_witness :
    (InventoryManager.empty.import_data
      (InventoryManager.export_data
        ⟨[("A", ⟨"A", "X", 0, 2, [(⟨2030, 1, 1⟩, 1), (⟨2031, 1, 1⟩, 1)], ⟨2025, 1, 1⟩⟩)],
          [], {"X"}⟩) ⟨2026, 1, 1⟩).1 = true :=
  (roundtrip_spec
    ⟨[("A", ⟨"A", "X", 0, 2, [(⟨2030, 1, 1⟩, 1), (⟨2031, 1, 1⟩, 1)], ⟨2025, 1, 1⟩⟩)],
      [], {"X"}⟩ ⟨2026, 1, 1⟩ (by decide) (by decide)).1

end Inventory
